import Mathlib

/-!
Verification of the bounded-concurrency compilation queue of
build-system/tasks/compile.js.

The module keeps three pieces of module-level state:

  const queue = [];
  let inProgress = 0;
  const MAX_PARALLEL_CLOSURE_INVOCATIONS = 4;

and one exported operation, closureCompile, which wraps each submission in
a start-function, pushes it on the queue and calls next().  The helper
next() dequeues and invokes the front start-function when inProgress is
below the bound; a start-function increments inProgress and launches the
asynchronous compile; the success continuation decrements inProgress,
calls next() and resolves the submitter promise; the failure continuation
reports the error and calls process.exit(1).

We embed this as a deterministic state machine.  A state carries the two
mutable variables (queue, inProgress) together with ghost bookkeeping that
only records observations: which jobs are in flight, the order in which
jobs were submitted, started and resolved, how many error reports were
printed, and the process exit code.  Jobs are identified by natural
numbers.  External events (a submission, a compile resolving, a compile
rejecting) drive the machine; once the process has exited no further
event has any effect.
-/

/-- State of the compilation queue.  `queue` and `inProgress` are the two
mutable variables of the source; the remaining fields are ghost
observations: `running` holds the jobs whose compile is in flight,
`started`, `submitted` and `resolved` record orders of events, `rejected`
would record a rejection of a submitter promise (the source provides no
reject path, see closureCompile), `errors` counts console error reports,
and `exitCode` is `some c` once process.exit(c) has run. -/
structure SchedState where
  queue : List Nat
  inProgress : Nat
  running : List Nat
  started : List Nat
  submitted : List Nat
  resolved : List Nat
  rejected : List Nat
  errors : Nat
  exitCode : Option Nat
deriving DecidableEq, Repr

/-- Source line 34: `const MAX_PARALLEL_CLOSURE_INVOCATIONS = 4;`. -/
def MAX_PARALLEL_CLOSURE_INVOCATIONS : Nat := 4

/-- The start-function built for job `j` (source lines 44 to 59, first
half): `inProgress++` and the asynchronous compile is launched, so `j`
becomes in flight; ghost field `started` records the start order. -/
def start (j : Nat) (s : SchedState) : SchedState :=
  { s with
    inProgress := s.inProgress + 1
    running := s.running ++ [j]
    started := s.started ++ [j] }

/-- Source lines 60 to 67:

  function next() \x7b
    if (!queue.length) \x7b return; \x7d
    if (inProgress < MAX_PARALLEL_CLOSURE_INVOCATIONS) \x7b
      queue.shift()();
    \x7d
  \x7d

The bound appears as the parameter `maxParallel`; every statement about
the program instantiates it with MAX_PARALLEL_CLOSURE_INVOCATIONS. -/
def next (maxParallel : Nat) (s : SchedState) : SchedState :=
  match s.queue with
  | [] => s
  | j :: rest =>
    if s.inProgress < maxParallel then start j { s with queue := rest } else s

/-- Source lines 39 to 70, the submission path of closureCompile: build
the start-function for `j`, `queue.push(start)`, then `next()`.  The
returned promise captures only a resolve callback (`new
Promise(function(resolve) ...)`); there is no reject path, so nothing can
ever extend the ghost `rejected` field. -/
def closureCompile (maxParallel : Nat) (j : Nat) (s : SchedState) : SchedState :=
  next maxParallel
    { s with queue := s.queue ++ [j], submitted := s.submitted ++ [j] }

/-- Source lines 47 to 54, the success continuation of job `j`:
`inProgress--`, then `next()`, then `resolve()` (ghost field `resolved`
records the resolution order).  The Travis progress dot is output only
and not modelled. -/
def completeSuccess (maxParallel : Nat) (j : Nat) (s : SchedState) : SchedState :=
  let s1 := { s with inProgress := s.inProgress - 1, running := s.running.erase j }
  let s2 := next maxParallel s1
  { s2 with resolved := s2.resolved ++ [j] }

/-- Source lines 55 to 58, the failure continuation: one console error
report, then `process.exit(1)`.  The submitter promise is neither
resolved nor rejected. -/
def completeFailure (s : SchedState) : SchedState :=
  { s with errors := s.errors + 1, exitCode := some 1 }

/-- External events driving the queue: a caller submits job `j`; the
asynchronous compile of job `j` resolves; the asynchronous compile of
job `j` rejects. -/
inductive Event where
  | submit (j : Nat)
  | finish (j : Nat)
  | fail (j : Nat)
deriving DecidableEq, Repr

/-- One event applied to a state.  After process.exit nothing further
happens.  A finish or fail event concerns a compile that is actually in
flight; an event for a job that is not running has no effect. -/
def stepEv (maxParallel : Nat) (s : SchedState) (e : Event) : SchedState :=
  if s.exitCode.isSome then s
  else
    match e with
    | Event.submit j => closureCompile maxParallel j s
    | Event.finish j =>
      if j ∈ s.running then completeSuccess maxParallel j s else s
    | Event.fail j =>
      if j ∈ s.running then completeFailure s else s

/-- The module-load state: empty queue, `inProgress = 0`, no ghost
history, process alive. -/
def initState : SchedState :=
  ⟨[], 0, [], [], [], [], [], 0, none⟩

/-- The state after a sequence of events, from the module-load state. -/
def run (maxParallel : Nat) (evs : List Event) : SchedState :=
  evs.foldl (stepEv maxParallel) initState

def QueueInv (maxParallel : Nat) (s : SchedState) : Prop :=
  s.inProgress ≤ maxParallel ∧
  (s.queue ≠ [] → s.inProgress = maxParallel) ∧
  s.inProgress = s.running.length ∧
  s.started ++ s.queue = s.submitted ∧
  (∀ j ∈ s.running, j ∈ s.started) ∧
  s.rejected = [] ∧
  (s.exitCode = none ∨ s.exitCode = some 1)

lemma queueInv_mk (maxParallel : Nat) (q rn st sub res rej : List Nat)
    (ip er : Nat) (ec : Option Nat)
    (c1 : ip ≤ maxParallel) (c2 : q ≠ [] → ip = maxParallel)
    (c3 : ip = rn.length) (c4 : st ++ q = sub)
    (c5 : ∀ a ∈ rn, a ∈ st) (c6 : rej = [])
    (c7 : ec = none ∨ ec = some 1) :
    QueueInv maxParallel ⟨q, ip, rn, st, sub, res, rej, er, ec⟩ :=
  ⟨c1, c2, c3, c4, c5, c6, c7⟩

lemma next_of_queue_nil (maxParallel : Nat) (s : SchedState)
    (h : s.queue = []) : next maxParallel s = s := by
  unfold next
  rw [h]

lemma next_of_lt (maxParallel : Nat) (s : SchedState) (j : Nat) (rest : List Nat)
    (h : s.queue = j :: rest) (hlt : s.inProgress < maxParallel) :
    next maxParallel s = start j { s with queue := rest } := by
  unfold next
  rw [h]
  simp [hlt]

lemma next_of_ge (maxParallel : Nat) (s : SchedState) (j : Nat) (rest : List Nat)
    (h : s.queue = j :: rest) (hge : ¬ s.inProgress < maxParallel) :
    next maxParallel s = s := by
  unfold next
  rw [h]
  simp [hge]

lemma inv_closureCompile (maxParallel j : Nat) (s : SchedState)
    (h : QueueInv maxParallel s) :
    QueueInv maxParallel (closureCompile maxParallel j s) := by
  obtain ⟨q, ip, rn, st, sub, res, rej, er, ec⟩ := s
  obtain ⟨h1, h2, h3, h4, h5, h6, h7⟩ := h
  simp only at h1 h2 h3 h4 h5 h6 h7
  unfold closureCompile
  cases q with
  | nil =>
    simp only [List.append_nil] at h4
    by_cases hip : ip < maxParallel
    · rw [next_of_lt maxParallel _ j [] rfl hip]
      show QueueInv maxParallel
        ⟨[], ip + 1, rn ++ [j], st ++ [j], sub ++ [j], res, rej, er, ec⟩
      refine queueInv_mk maxParallel _ _ _ _ _ _ _ _ _
        (by omega) (by simp) (by simp [h3]) (by simp [h4]) ?_ h6 h7
      intro a ha
      simp only [List.mem_append, List.mem_singleton] at ha ⊢
      rcases ha with ha | ha
      · exact Or.inl (h5 a ha)
      · exact Or.inr ha
    · rw [next_of_ge maxParallel _ j [] rfl hip]
      show QueueInv maxParallel ⟨[j], ip, rn, st, sub ++ [j], res, rej, er, ec⟩
      exact queueInv_mk maxParallel _ _ _ _ _ _ _ _ _
        h1 (fun _ => by omega) h3 (by simp [h4]) h5 h6 h7
  | cons a l =>
    have hipK : ip = maxParallel := h2 (by simp)
    rw [next_of_ge maxParallel _ a (l ++ [j]) rfl
      (by show ¬ ip < maxParallel; omega)]
    show QueueInv maxParallel
      ⟨a :: (l ++ [j]), ip, rn, st, sub ++ [j], res, rej, er, ec⟩
    refine queueInv_mk maxParallel _ _ _ _ _ _ _ _ _
      h1 (fun _ => hipK) h3 ?_ h5 h6 h7
    rw [← h4]
    simp

lemma inv_completeSuccess (maxParallel j : Nat) (s : SchedState)
    (h : QueueInv maxParallel s) (hj : j ∈ s.running) :
    QueueInv maxParallel (completeSuccess maxParallel j s) := by
  obtain ⟨q, ip, rn, st, sub, res, rej, er, ec⟩ := s
  obtain ⟨h1, h2, h3, h4, h5, h6, h7⟩ := h
  simp only at h1 h2 h3 h4 h5 h6 h7 hj
  have hlen : (rn.erase j).length = rn.length - 1 := List.length_erase_of_mem hj
  have hip1 : 1 ≤ ip := by
    have := List.length_pos.mpr (List.ne_nil_of_mem hj)
    omega
  simp only [completeSuccess]
  cases q with
  | nil =>
    rw [next_of_queue_nil maxParallel _ rfl]
    simp only [List.append_nil] at h4
    show QueueInv maxParallel
      ⟨[], ip - 1, rn.erase j, st, sub, res ++ [j], rej, er, ec⟩
    refine queueInv_mk maxParallel _ _ _ _ _ _ _ _ _
      (by omega) (by simp) (by rw [hlen]; omega) (by simp [h4]) ?_ h6 h7
    intro a ha
    exact h5 a (List.mem_of_mem_erase ha)
  | cons a l =>
    have hipK : ip = maxParallel := h2 (by simp)
    rw [next_of_lt maxParallel _ a l rfl (by show ip - 1 < maxParallel; omega)]
    show QueueInv maxParallel
      ⟨l, ip - 1 + 1, rn.erase j ++ [a], st ++ [a], sub, res ++ [j], rej, er, ec⟩
    refine queueInv_mk maxParallel _ _ _ _ _ _ _ _ _
      (by omega) (fun _ => by omega) (by simp [hlen]; omega) ?_ ?_ h6 h7
    · rw [← h4]
      simp
    · intro b hb
      simp only [List.mem_append, List.mem_singleton] at hb ⊢
      rcases hb with hb | hb
      · exact Or.inl (h5 b (List.mem_of_mem_erase hb))
      · exact Or.inr hb

lemma inv_completeFailure (maxParallel : Nat) (s : SchedState)
    (h : QueueInv maxParallel s) : QueueInv maxParallel (completeFailure s) := by
  obtain ⟨h1, h2, h3, h4, h5, h6, h7⟩ := h
  exact ⟨h1, h2, h3, h4, h5, h6, Or.inr rfl⟩

lemma inv_stepEv (maxParallel : Nat) (s : SchedState) (e : Event)
    (h : QueueInv maxParallel s) : QueueInv maxParallel (stepEv maxParallel s e) := by
  unfold stepEv
  by_cases hex : s.exitCode.isSome
  · simpa [hex] using h
  · simp only [hex, if_false, Bool.false_eq_true]
    cases e with
    | submit j => exact inv_closureCompile maxParallel j s h
    | finish j =>
      by_cases hj : j ∈ s.running
      · simpa [hj] using inv_completeSuccess maxParallel j s h hj
      · simpa [hj] using h
    | fail j =>
      by_cases hj : j ∈ s.running
      · simpa [hj] using inv_completeFailure maxParallel s h
      · simpa [hj] using h

lemma inv_foldl (maxParallel : Nat) (evs : List Event) (s : SchedState)
    (h : QueueInv maxParallel s) :
    QueueInv maxParallel (evs.foldl (stepEv maxParallel) s) := by
  induction evs generalizing s with
  | nil => simpa using h
  | cons e rest ih =>
    simpa using ih (stepEv maxParallel s e) (inv_stepEv maxParallel s e h)

lemma inv_run (maxParallel : Nat) (evs : List Event) :
    QueueInv maxParallel (run maxParallel evs) :=
  inv_foldl maxParallel evs initState
    (queueInv_mk maxParallel [] [] [] [] [] [] 0 0 none
      (Nat.zero_le _) (fun h => absurd rfl h) rfl rfl
      (fun a ha => absurd ha (List.not_mem_nil a)) rfl (Or.inl rfl))

lemma run_append (maxParallel : Nat) (a b : List Event) :
    run maxParallel (a ++ b) = b.foldl (stepEv maxParallel) (run maxParallel a) := by
  simp [run, List.foldl_append]

lemma run_snoc (maxParallel : Nat) (evs : List Event) (e : Event) :
    run maxParallel (evs ++ [e]) = stepEv maxParallel (run maxParallel evs) e := by
  simp [run, List.foldl_append]

lemma stepEv_of_exited (maxParallel : Nat) (s : SchedState) (e : Event)
    (h : s.exitCode.isSome) : stepEv maxParallel s e = s := by
  unfold stepEv
  simp [h]

lemma foldl_of_exited (maxParallel : Nat) (evs : List Event) (s : SchedState)
    (h : s.exitCode.isSome) : evs.foldl (stepEv maxParallel) s = s := by
  induction evs with
  | nil => rfl
  | cons e rest ih =>
    simpa [stepEv_of_exited maxParallel s e h] using ih

lemma resolved_next (maxParallel : Nat) (s : SchedState) :
    (next maxParallel s).resolved = s.resolved := by
  rcases hq : s.queue with _ | ⟨a, l⟩
  · rw [next_of_queue_nil maxParallel s hq]
  · by_cases hip : s.inProgress < maxParallel
    · rw [next_of_lt maxParallel s a l hq hip]
      rfl
    · rw [next_of_ge maxParallel s a l hq hip]

lemma completeSuccess_eq (maxParallel j : Nat) (s : SchedState)
    (h : QueueInv maxParallel s) (hj : j ∈ s.running) :
    completeSuccess maxParallel j s =
      ⟨s.queue.drop 1,
       s.inProgress - 1 + (s.queue.take 1).length,
       s.running.erase j ++ s.queue.take 1,
       s.started ++ s.queue.take 1,
       s.submitted, s.resolved ++ [j], s.rejected, s.errors, s.exitCode⟩ := by
  obtain ⟨q, ip, rn, st, sub, res, rej, er, ec⟩ := s
  obtain ⟨h1, h2, h3, h4, h5, h6, h7⟩ := h
  simp only at h2 h3 hj
  have hip1 : 1 ≤ ip := by
    have := List.length_pos.mpr (List.ne_nil_of_mem hj)
    omega
  simp only [completeSuccess]
  cases q with
  | nil =>
    rw [next_of_queue_nil maxParallel _ rfl]
    show (⟨[], ip - 1, rn.erase j, st, sub, res ++ [j], rej, er, ec⟩ : SchedState) = _
    simp
  | cons a l =>
    have hipK : ip = maxParallel := h2 (by simp)
    rw [next_of_lt maxParallel _ a l rfl (by show ip - 1 < maxParallel; omega)]
    show (⟨l, ip - 1 + 1, rn.erase j ++ [a], st ++ [a], sub, res ++ [j], rej, er, ec⟩
      : SchedState) = _
    simp

lemma closureCompile_eq_of_lt (maxParallel j : Nat) (s : SchedState)
    (h : QueueInv maxParallel s) (hip : s.inProgress < maxParallel) :
    closureCompile maxParallel j s =
      ⟨[], s.inProgress + 1, s.running ++ [j], s.started ++ [j],
       s.submitted ++ [j], s.resolved, s.rejected, s.errors, s.exitCode⟩ := by
  obtain ⟨q, ip, rn, st, sub, res, rej, er, ec⟩ := s
  obtain ⟨h1, h2, h3, h4, h5, h6, h7⟩ := h
  simp only at h2 hip
  have hq : q = [] := by
    cases q with
    | nil => rfl
    | cons a l =>
      have := h2 (by simp)
      omega
  subst hq
  unfold closureCompile
  rw [next_of_lt maxParallel _ j [] rfl hip]
  rfl

lemma closureCompile_eq_of_ge (maxParallel j : Nat) (s : SchedState)
    (hip : ¬ s.inProgress < maxParallel) :
    closureCompile maxParallel j s =
      ⟨s.queue ++ [j], s.inProgress, s.running, s.started,
       s.submitted ++ [j], s.resolved, s.rejected, s.errors, s.exitCode⟩ := by
  obtain ⟨q, ip, rn, st, sub, res, rej, er, ec⟩ := s
  simp only at hip
  unfold closureCompile
  cases q with
  | nil =>
    rw [next_of_ge maxParallel _ j [] rfl hip]
  | cons a l =>
    rw [next_of_ge maxParallel _ a (l ++ [j]) rfl hip]

/-- C1: over every sequence of submissions to closureCompile and every
interleaving of job completions, the in-flight counter inProgress never
exceeds MAX_PARALLEL_CLOSURE_INVOCATIONS; moreover next dequeues and starts
a queued job only when inProgress is strictly below the bound: at or above
the bound next leaves the state untouched. -/
theorem closureCompile_respects_concurrency_bound :
    (∀ evs : List Event,
      (run MAX_PARALLEL_CLOSURE_INVOCATIONS evs).inProgress ≤
        MAX_PARALLEL_CLOSURE_INVOCATIONS) ∧
    (∀ s : SchedState, MAX_PARALLEL_CLOSURE_INVOCATIONS ≤ s.inProgress →
      next MAX_PARALLEL_CLOSURE_INVOCATIONS s = s) := by
  constructor
  · intro evs
    exact (inv_run MAX_PARALLEL_CLOSURE_INVOCATIONS evs).1
  · intro s hs
    cases hq : s.queue with
    | nil => exact next_of_queue_nil _ s hq
    | cons a l => exact next_of_ge _ s a l hq (by omega)

theorem closureCompile_respects_concurrency_bound_witness :
    MAX_PARALLEL_CLOSURE_INVOCATIONS ≤
      (⟨[9], 4, [0, 1, 2, 3], [0, 1, 2, 3], [0, 1, 2, 3, 9], [], [], 0, none⟩
        : SchedState).inProgress ∧
    next MAX_PARALLEL_CLOSURE_INVOCATIONS
        ⟨[9], 4, [0, 1, 2, 3], [0, 1, 2, 3], [0, 1, 2, 3, 9], [], [], 0, none⟩ =
      ⟨[9], 4, [0, 1, 2, 3], [0, 1, 2, 3], [0, 1, 2, 3, 9], [], [], 0, none⟩ :=
  ⟨by decide, closureCompile_respects_concurrency_bound.2 _ (by decide)⟩

/-- C2: submissions are appended at the back of the queue and next dequeues
from the front, so after any event sequence the start order followed by the
still-queued jobs is exactly the submission order.  In particular the start
order is an initial segment of the submission order: for jobs A submitted
before B, B never starts before A. -/
theorem jobs_start_in_submission_order (evs : List Event) :
    (run MAX_PARALLEL_CLOSURE_INVOCATIONS evs).started ++
        (run MAX_PARALLEL_CLOSURE_INVOCATIONS evs).queue =
      (run MAX_PARALLEL_CLOSURE_INVOCATIONS evs).submitted :=
  (inv_run MAX_PARALLEL_CLOSURE_INVOCATIONS evs).2.2.2.1

/-- C6: next is a no-op when it has nothing to do: on any state whose queue
is empty or whose in-flight counter equals the bound, next returns the state
unchanged, so queue contents and counter are untouched and no job starts. -/
theorem next_noop_when_empty_or_saturated (s : SchedState)
    (h : s.queue = [] ∨
      s.inProgress = MAX_PARALLEL_CLOSURE_INVOCATIONS) :
    next MAX_PARALLEL_CLOSURE_INVOCATIONS s = s := by
  rcases h with h | h
  · exact next_of_queue_nil _ s h
  · cases hq : s.queue with
    | nil => exact next_of_queue_nil _ s hq
    | cons a l => exact next_of_ge _ s a l hq (by omega)

theorem next_noop_when_empty_or_saturated_witness :
    ((⟨[7], 4, [0, 1, 2, 3], [0, 1, 2, 3], [0, 1, 2, 3, 7], [], [], 0, none⟩
        : SchedState).queue = [] ∨
      (⟨[7], 4, [0, 1, 2, 3], [0, 1, 2, 3], [0, 1, 2, 3, 7], [], [], 0, none⟩
        : SchedState).inProgress = MAX_PARALLEL_CLOSURE_INVOCATIONS) ∧
    next MAX_PARALLEL_CLOSURE_INVOCATIONS
        ⟨[7], 4, [0, 1, 2, 3], [0, 1, 2, 3], [0, 1, 2, 3, 7], [], [], 0, none⟩ =
      ⟨[7], 4, [0, 1, 2, 3], [0, 1, 2, 3], [0, 1, 2, 3, 7], [], [], 0, none⟩ :=
  ⟨by decide, next_noop_when_empty_or_saturated _ (by decide)⟩

/-- C10: the promise returned by closureCompile never rejects.  Its executor
captures only the resolve callback, so over every event sequence no
submitter promise is ever rejected; a job failure instead leads to
process.exit(1), so the exit code is the only failure observation. -/
theorem closureCompile_promise_never_rejects (evs : List Event) :
    (run MAX_PARALLEL_CLOSURE_INVOCATIONS evs).rejected = [] ∧
    ((run MAX_PARALLEL_CLOSURE_INVOCATIONS evs).exitCode = none ∨
      (run MAX_PARALLEL_CLOSURE_INVOCATIONS evs).exitCode = some 1) := by
  obtain ⟨-, -, -, -, -, h6, h7⟩ := inv_run MAX_PARALLEL_CLOSURE_INVOCATIONS evs
  exact ⟨h6, h7⟩

/-- C4: when a running job j completes successfully, the counter is
decremented by exactly one, then next runs on the decremented state and
starts exactly the front queued job when the queue is non-empty, and only
then is the promise of j resolved.  Observably: the resolved order gains
exactly j, the start order gains the front of the queue (nothing when the
queue is empty), the queue loses its front element, and the counter drops
by one and rises by one per job started. -/
theorem completion_decrements_then_advances_then_resolves
    (evs : List Event) (j : Nat)
    (hj : j ∈ (run MAX_PARALLEL_CLOSURE_INVOCATIONS evs).running) :
    (completeSuccess MAX_PARALLEL_CLOSURE_INVOCATIONS j
        (run MAX_PARALLEL_CLOSURE_INVOCATIONS evs)).resolved
      = (run MAX_PARALLEL_CLOSURE_INVOCATIONS evs).resolved ++ [j] ∧
    (completeSuccess MAX_PARALLEL_CLOSURE_INVOCATIONS j
        (run MAX_PARALLEL_CLOSURE_INVOCATIONS evs)).started
      = (run MAX_PARALLEL_CLOSURE_INVOCATIONS evs).started ++
        (run MAX_PARALLEL_CLOSURE_INVOCATIONS evs).queue.take 1 ∧
    (completeSuccess MAX_PARALLEL_CLOSURE_INVOCATIONS j
        (run MAX_PARALLEL_CLOSURE_INVOCATIONS evs)).queue
      = (run MAX_PARALLEL_CLOSURE_INVOCATIONS evs).queue.drop 1 ∧
    (completeSuccess MAX_PARALLEL_CLOSURE_INVOCATIONS j
        (run MAX_PARALLEL_CLOSURE_INVOCATIONS evs)).inProgress + 1
      = (run MAX_PARALLEL_CLOSURE_INVOCATIONS evs).inProgress +
        ((run MAX_PARALLEL_CLOSURE_INVOCATIONS evs).queue.take 1).length := by
  have hInv := inv_run MAX_PARALLEL_CLOSURE_INVOCATIONS evs
  have hip1 : 1 ≤ (run MAX_PARALLEL_CLOSURE_INVOCATIONS evs).inProgress := by
    have h3 := hInv.2.2.1
    have := List.length_pos.mpr (List.ne_nil_of_mem hj)
    omega
  rw [completeSuccess_eq MAX_PARALLEL_CLOSURE_INVOCATIONS j _ hInv hj]
  refine ⟨rfl, rfl, rfl, ?_⟩
  show (run MAX_PARALLEL_CLOSURE_INVOCATIONS evs).inProgress - 1 +
      ((run MAX_PARALLEL_CLOSURE_INVOCATIONS evs).queue.take 1).length + 1 = _
  omega

theorem completion_decrements_then_advances_then_resolves_witness :
    0 ∈ (run MAX_PARALLEL_CLOSURE_INVOCATIONS [Event.submit 0]).running ∧
    ((completeSuccess MAX_PARALLEL_CLOSURE_INVOCATIONS 0
        (run MAX_PARALLEL_CLOSURE_INVOCATIONS [Event.submit 0])).resolved
      = (run MAX_PARALLEL_CLOSURE_INVOCATIONS [Event.submit 0]).resolved ++ [0] ∧
    (completeSuccess MAX_PARALLEL_CLOSURE_INVOCATIONS 0
        (run MAX_PARALLEL_CLOSURE_INVOCATIONS [Event.submit 0])).started
      = (run MAX_PARALLEL_CLOSURE_INVOCATIONS [Event.submit 0]).started ++
        (run MAX_PARALLEL_CLOSURE_INVOCATIONS [Event.submit 0]).queue.take 1 ∧
    (completeSuccess MAX_PARALLEL_CLOSURE_INVOCATIONS 0
        (run MAX_PARALLEL_CLOSURE_INVOCATIONS [Event.submit 0])).queue
      = (run MAX_PARALLEL_CLOSURE_INVOCATIONS [Event.submit 0]).queue.drop 1 ∧
    (completeSuccess MAX_PARALLEL_CLOSURE_INVOCATIONS 0
        (run MAX_PARALLEL_CLOSURE_INVOCATIONS [Event.submit 0])).inProgress + 1
      = (run MAX_PARALLEL_CLOSURE_INVOCATIONS [Event.submit 0]).inProgress +
        ((run MAX_PARALLEL_CLOSURE_INVOCATIONS [Event.submit 0]).queue.take 1).length) :=
  ⟨by decide,
    completion_decrements_then_advances_then_resolves [Event.submit 0] 0 (by decide)⟩

/-- C5: at each of the two places the program invokes next — inside a
submission after the push, and inside a success continuation after the
decrement — the single call leaves the system saturated or drained: when
the call returns, either the queue is empty or the counter equals
MAX_PARALLEL_CLOSURE_INVOCATIONS.  (On the reachable states at which these
calls happen, at most one queued job can be startable, so the single
conditional dequeue of next coincides with a draining loop.) -/
theorem advance_saturates_at_call_sites (evs : List Event) (j : Nat) :
    ((closureCompile MAX_PARALLEL_CLOSURE_INVOCATIONS j
        (run MAX_PARALLEL_CLOSURE_INVOCATIONS evs)).queue = [] ∨
      (closureCompile MAX_PARALLEL_CLOSURE_INVOCATIONS j
        (run MAX_PARALLEL_CLOSURE_INVOCATIONS evs)).inProgress
        = MAX_PARALLEL_CLOSURE_INVOCATIONS) ∧
    (j ∈ (run MAX_PARALLEL_CLOSURE_INVOCATIONS evs).running →
      ((completeSuccess MAX_PARALLEL_CLOSURE_INVOCATIONS j
          (run MAX_PARALLEL_CLOSURE_INVOCATIONS evs)).queue = [] ∨
        (completeSuccess MAX_PARALLEL_CLOSURE_INVOCATIONS j
          (run MAX_PARALLEL_CLOSURE_INVOCATIONS evs)).inProgress
          = MAX_PARALLEL_CLOSURE_INVOCATIONS)) := by
  have hInv := inv_run MAX_PARALLEL_CLOSURE_INVOCATIONS evs
  constructor
  · by_cases hip : (run MAX_PARALLEL_CLOSURE_INVOCATIONS evs).inProgress <
        MAX_PARALLEL_CLOSURE_INVOCATIONS
    · rw [closureCompile_eq_of_lt MAX_PARALLEL_CLOSURE_INVOCATIONS j _ hInv hip]
      exact Or.inl rfl
    · rw [closureCompile_eq_of_ge MAX_PARALLEL_CLOSURE_INVOCATIONS j _ hip]
      refine Or.inr ?_
      show (run MAX_PARALLEL_CLOSURE_INVOCATIONS evs).inProgress = _
      have h1 := hInv.1
      omega
  · intro hj
    rw [completeSuccess_eq MAX_PARALLEL_CLOSURE_INVOCATIONS j _ hInv hj]
    cases hq : (run MAX_PARALLEL_CLOSURE_INVOCATIONS evs).queue with
    | nil => exact Or.inl (by simp [hq])
    | cons a l =>
      refine Or.inr ?_
      have hipK := hInv.2.1 (by simp [hq])
      show (run MAX_PARALLEL_CLOSURE_INVOCATIONS evs).inProgress - 1 + 1 = _
      have h4 : MAX_PARALLEL_CLOSURE_INVOCATIONS = 4 := rfl
      omega

theorem advance_saturates_at_call_sites_witness :
    0 ∈ (run MAX_PARALLEL_CLOSURE_INVOCATIONS [Event.submit 0]).running ∧
    ((closureCompile MAX_PARALLEL_CLOSURE_INVOCATIONS 1
        (run MAX_PARALLEL_CLOSURE_INVOCATIONS [Event.submit 0])).queue = [] ∨
      (closureCompile MAX_PARALLEL_CLOSURE_INVOCATIONS 1
        (run MAX_PARALLEL_CLOSURE_INVOCATIONS [Event.submit 0])).inProgress
        = MAX_PARALLEL_CLOSURE_INVOCATIONS) ∧
    ((completeSuccess MAX_PARALLEL_CLOSURE_INVOCATIONS 0
        (run MAX_PARALLEL_CLOSURE_INVOCATIONS [Event.submit 0])).queue = [] ∨
      (completeSuccess MAX_PARALLEL_CLOSURE_INVOCATIONS 0
        (run MAX_PARALLEL_CLOSURE_INVOCATIONS [Event.submit 0])).inProgress
        = MAX_PARALLEL_CLOSURE_INVOCATIONS) :=
  ⟨by decide, (advance_saturates_at_call_sites [Event.submit 0] 1).1,
    (advance_saturates_at_call_sites [Event.submit 0] 0).2 (by decide)⟩

/-- C9: in every reachable quiescent state, a non-empty pending queue means
the counter equals MAX_PARALLEL_CLOSURE_INVOCATIONS; equivalently a
submission starts its job synchronously inside the submit call exactly when
a slot is free at submission time (the start order gains the submitted job
itself), and is merely queued when the bound is saturated (the start order
is unchanged). -/
theorem queue_nonempty_iff_saturated (evs : List Event) :
    ((run MAX_PARALLEL_CLOSURE_INVOCATIONS evs).queue ≠ [] →
      (run MAX_PARALLEL_CLOSURE_INVOCATIONS evs).inProgress
        = MAX_PARALLEL_CLOSURE_INVOCATIONS) ∧
    (∀ j, (run MAX_PARALLEL_CLOSURE_INVOCATIONS evs).inProgress <
        MAX_PARALLEL_CLOSURE_INVOCATIONS →
      (closureCompile MAX_PARALLEL_CLOSURE_INVOCATIONS j
          (run MAX_PARALLEL_CLOSURE_INVOCATIONS evs)).started
        = (run MAX_PARALLEL_CLOSURE_INVOCATIONS evs).started ++ [j]) ∧
    (∀ j, MAX_PARALLEL_CLOSURE_INVOCATIONS ≤
        (run MAX_PARALLEL_CLOSURE_INVOCATIONS evs).inProgress →
      (closureCompile MAX_PARALLEL_CLOSURE_INVOCATIONS j
          (run MAX_PARALLEL_CLOSURE_INVOCATIONS evs)).started
        = (run MAX_PARALLEL_CLOSURE_INVOCATIONS evs).started) := by
  have hInv := inv_run MAX_PARALLEL_CLOSURE_INVOCATIONS evs
  refine ⟨hInv.2.1, ?_, ?_⟩
  · intro j hip
    rw [closureCompile_eq_of_lt MAX_PARALLEL_CLOSURE_INVOCATIONS j _ hInv hip]
  · intro j hip
    rw [closureCompile_eq_of_ge MAX_PARALLEL_CLOSURE_INVOCATIONS j _ (by omega)]

theorem queue_nonempty_iff_saturated_witness :
    ((run MAX_PARALLEL_CLOSURE_INVOCATIONS
        [Event.submit 0, Event.submit 1, Event.submit 2, Event.submit 3,
          Event.submit 4]).queue ≠ [] ∧
      (run MAX_PARALLEL_CLOSURE_INVOCATIONS
        [Event.submit 0, Event.submit 1, Event.submit 2, Event.submit 3,
          Event.submit 4]).inProgress = MAX_PARALLEL_CLOSURE_INVOCATIONS) ∧
    ((run MAX_PARALLEL_CLOSURE_INVOCATIONS [Event.submit 0]).inProgress <
        MAX_PARALLEL_CLOSURE_INVOCATIONS ∧
      (closureCompile MAX_PARALLEL_CLOSURE_INVOCATIONS 1
          (run MAX_PARALLEL_CLOSURE_INVOCATIONS [Event.submit 0])).started
        = (run MAX_PARALLEL_CLOSURE_INVOCATIONS [Event.submit 0]).started ++ [1]) ∧
    (MAX_PARALLEL_CLOSURE_INVOCATIONS ≤
        (run MAX_PARALLEL_CLOSURE_INVOCATIONS
          [Event.submit 0, Event.submit 1, Event.submit 2, Event.submit 3,
            Event.submit 4]).inProgress ∧
      (closureCompile MAX_PARALLEL_CLOSURE_INVOCATIONS 9
          (run MAX_PARALLEL_CLOSURE_INVOCATIONS
            [Event.submit 0, Event.submit 1, Event.submit 2, Event.submit 3,
              Event.submit 4])).started
        = (run MAX_PARALLEL_CLOSURE_INVOCATIONS
            [Event.submit 0, Event.submit 1, Event.submit 2, Event.submit 3,
              Event.submit 4]).started) :=
  ⟨⟨by decide,
      (queue_nonempty_iff_saturated
        [Event.submit 0, Event.submit 1, Event.submit 2, Event.submit 3,
          Event.submit 4]).1 (by decide)⟩,
    ⟨by decide, (queue_nonempty_iff_saturated [Event.submit 0]).2.1 1 (by decide)⟩,
    ⟨by decide,
      (queue_nonempty_iff_saturated
        [Event.submit 0, Event.submit 1, Event.submit 2, Event.submit 3,
          Event.submit 4]).2.2 9 (by decide)⟩⟩

lemma resolved_stepEv_submit (maxParallel : Nat) (s : SchedState) (j : Nat) :
    (stepEv maxParallel s (Event.submit j)).resolved = s.resolved := by
  unfold stepEv
  by_cases hex : s.exitCode.isSome
  · simp [hex]
  · simp only [hex, Bool.false_eq_true, if_false]
    show (closureCompile maxParallel j s).resolved = s.resolved
    unfold closureCompile
    rw [resolved_next]

lemma resolved_stepEv_fail (maxParallel : Nat) (s : SchedState) (j : Nat) :
    (stepEv maxParallel s (Event.fail j)).resolved = s.resolved := by
  unfold stepEv
  by_cases hex : s.exitCode.isSome
  · simp [hex]
  · by_cases hj : j ∈ s.running
    · simp [hex, hj, completeFailure]
    · simp [hex, hj]

lemma resolved_stepEv_finish (maxParallel : Nat) (s : SchedState) (j : Nat)
    (hex : s.exitCode = none) (hj : j ∈ s.running) :
    (stepEv maxParallel s (Event.finish j)).resolved = s.resolved ++ [j] := by
  unfold stepEv
  simp only [hex, Option.isSome_none, Bool.false_eq_true, if_false, hj, if_true]
  show (completeSuccess maxParallel j s).resolved = s.resolved ++ [j]
  unfold completeSuccess
  simp only
  rw [resolved_next]

/-- C7: the promise returned by closureCompile for job j resolves exactly
with the completion of the compile of j itself.  A submission resolves
nothing; a rejection resolves nothing; the resolution of a running job j
appends exactly j to the resolved order; any job found resolved after some
other job k finished was already resolved before or is k itself; and a job
can only be running — hence resolvable — once it has started. -/
theorem promise_resolves_with_own_job (evs : List Event) (j : Nat) :
    (run MAX_PARALLEL_CLOSURE_INVOCATIONS (evs ++ [Event.submit j])).resolved
      = (run MAX_PARALLEL_CLOSURE_INVOCATIONS evs).resolved ∧
    (run MAX_PARALLEL_CLOSURE_INVOCATIONS (evs ++ [Event.fail j])).resolved
      = (run MAX_PARALLEL_CLOSURE_INVOCATIONS evs).resolved ∧
    ((run MAX_PARALLEL_CLOSURE_INVOCATIONS evs).exitCode = none →
      j ∈ (run MAX_PARALLEL_CLOSURE_INVOCATIONS evs).running →
      (run MAX_PARALLEL_CLOSURE_INVOCATIONS (evs ++ [Event.finish j])).resolved
        = (run MAX_PARALLEL_CLOSURE_INVOCATIONS evs).resolved ++ [j]) ∧
    (∀ k, j ∈ (run MAX_PARALLEL_CLOSURE_INVOCATIONS
        (evs ++ [Event.finish k])).resolved →
      j ∈ (run MAX_PARALLEL_CLOSURE_INVOCATIONS evs).resolved ∨ j = k) ∧
    (j ∈ (run MAX_PARALLEL_CLOSURE_INVOCATIONS evs).running →
      j ∈ (run MAX_PARALLEL_CLOSURE_INVOCATIONS evs).started) := by
  refine ⟨?_, ?_, ?_, ?_, ?_⟩
  · rw [run_snoc]
    exact resolved_stepEv_submit MAX_PARALLEL_CLOSURE_INVOCATIONS _ j
  · rw [run_snoc]
    exact resolved_stepEv_fail MAX_PARALLEL_CLOSURE_INVOCATIONS _ j
  · intro hex hj
    rw [run_snoc]
    exact resolved_stepEv_finish MAX_PARALLEL_CLOSURE_INVOCATIONS _ j hex hj
  · intro k hk
    rw [run_snoc] at hk
    by_cases hex : (run MAX_PARALLEL_CLOSURE_INVOCATIONS evs).exitCode = none
    · by_cases hkr : k ∈ (run MAX_PARALLEL_CLOSURE_INVOCATIONS evs).running
      · rw [resolved_stepEv_finish MAX_PARALLEL_CLOSURE_INVOCATIONS _ k hex hkr]
          at hk
        simpa using hk
      · refine Or.inl ?_
        unfold stepEv at hk
        simpa [hex, hkr] using hk
    · refine Or.inl ?_
      have hex2 : (run MAX_PARALLEL_CLOSURE_INVOCATIONS evs).exitCode.isSome := by
        rcases (inv_run MAX_PARALLEL_CLOSURE_INVOCATIONS evs).2.2.2.2.2.2 with h | h
        · exact absurd h hex
        · simp [h]
      rwa [stepEv_of_exited MAX_PARALLEL_CLOSURE_INVOCATIONS _ _ hex2] at hk
  · exact fun hj => (inv_run MAX_PARALLEL_CLOSURE_INVOCATIONS evs).2.2.2.2.1 j hj

theorem promise_resolves_with_own_job_witness :
    (run MAX_PARALLEL_CLOSURE_INVOCATIONS [Event.submit 0]).exitCode = none ∧
    0 ∈ (run MAX_PARALLEL_CLOSURE_INVOCATIONS [Event.submit 0]).running ∧
    (run MAX_PARALLEL_CLOSURE_INVOCATIONS
        ([Event.submit 0] ++ [Event.finish 0])).resolved
      = (run MAX_PARALLEL_CLOSURE_INVOCATIONS [Event.submit 0]).resolved ++ [0] ∧
    (0 ∈ (run MAX_PARALLEL_CLOSURE_INVOCATIONS [Event.submit 0]).resolved ∨
      (0 : Nat) = 0) ∧
    0 ∈ (run MAX_PARALLEL_CLOSURE_INVOCATIONS [Event.submit 0]).started :=
  ⟨by decide, by decide,
    (promise_resolves_with_own_job [Event.submit 0] 0).2.2.1 (by decide) (by decide),
    (promise_resolves_with_own_job [Event.submit 0] 0).2.2.2.1 0 (by decide),
    (promise_resolves_with_own_job [Event.submit 0] 0).2.2.2.2 (by decide)⟩

/-- C3: when the compile of a running job rejects, exactly one formatted
error report is emitted and the process exits immediately with status 1; in
the exited state every further event — submissions, completions of other
in-flight jobs — leaves the state untouched, so no queued job ever starts
and no in-flight job ever resolves afterwards.  The statement is over an
arbitrary bound, so it covers in particular the MaxConcurrency = 1 scenario
in which J1 rejects and J2 never starts. -/
theorem failure_reports_and_exits (maxParallel : Nat) (evs : List Event)
    (j : Nat) (hj : j ∈ (run maxParallel evs).running)
    (hex : (run maxParallel evs).exitCode = none) :
    (run maxParallel (evs ++ [Event.fail j])).exitCode = some 1 ∧
    (run maxParallel (evs ++ [Event.fail j])).errors
      = (run maxParallel evs).errors + 1 ∧
    (run maxParallel (evs ++ [Event.fail j])).started
      = (run maxParallel evs).started ∧
    (run maxParallel (evs ++ [Event.fail j])).resolved
      = (run maxParallel evs).resolved ∧
    ∀ evs2 : List Event,
      run maxParallel (evs ++ [Event.fail j] ++ evs2)
        = run maxParallel (evs ++ [Event.fail j]) := by
  have hstep : run maxParallel (evs ++ [Event.fail j])
      = completeFailure (run maxParallel evs) := by
    rw [run_snoc]
    unfold stepEv
    simp [hex, hj]
  refine ⟨by rw [hstep]; rfl, by rw [hstep]; rfl, by rw [hstep]; rfl,
    by rw [hstep]; rfl, ?_⟩
  intro evs2
  rw [run_append maxParallel (evs ++ [Event.fail j]) evs2]
  exact foldl_of_exited maxParallel evs2 _ (by rw [hstep]; rfl)

theorem failure_reports_and_exits_witness :
    0 ∈ (run 1 [Event.submit 0, Event.submit 1]).running ∧
    (run 1 [Event.submit 0, Event.submit 1]).exitCode = none ∧
    (run 1 ([Event.submit 0, Event.submit 1] ++ [Event.fail 0])).exitCode
      = some 1 ∧
    (run 1 ([Event.submit 0, Event.submit 1] ++ [Event.fail 0])).started
      = (run 1 [Event.submit 0, Event.submit 1]).started ∧
    run 1 ([Event.submit 0, Event.submit 1] ++ [Event.fail 0] ++ [Event.finish 1])
      = run 1 ([Event.submit 0, Event.submit 1] ++ [Event.fail 0]) :=
  ⟨by decide, by decide,
    (failure_reports_and_exits 1 [Event.submit 0, Event.submit 1] 0
      (by decide) (by decide)).1,
    (failure_reports_and_exits 1 [Event.submit 0, Event.submit 1] 0
      (by decide) (by decide)).2.2.1,
    (failure_reports_and_exits 1 [Event.submit 0, Event.submit 1] 0
      (by decide) (by decide)).2.2.2.2 [Event.finish 1]⟩

lemma drain_exists (maxParallel : Nat) (hpos : 1 ≤ maxParallel) :
    ∀ n : Nat, ∀ s : SchedState, QueueInv maxParallel s →
      s.exitCode = none → s.queue.length = n →
      ∃ fs : List Event,
        (∀ e ∈ fs, ∃ j, e = Event.finish j) ∧
        fs.length = n ∧
        (fs.foldl (stepEv maxParallel) s).queue = [] ∧
        (fs.foldl (stepEv maxParallel) s).started = s.submitted := by
  intro n
  induction n with
  | zero =>
    intro s hInv hex hq
    have hqe : s.queue = [] := List.length_eq_zero.mp hq
    have h4 := hInv.2.2.2.1
    rw [hqe] at h4
    refine ⟨[], by simp, rfl, hqe, by simpa using h4⟩
  | succ n ih =>
    intro s hInv hex hq
    have hqne : s.queue ≠ [] := by
      intro hcon
      rw [hcon] at hq
      simp at hq
    have hipK := hInv.2.1 hqne
    have h3 := hInv.2.2.1
    have hrn : s.running ≠ [] := by
      intro hcon
      rw [hcon] at h3
      simp at h3
      omega
    obtain ⟨r, rs, hr⟩ := List.exists_cons_of_ne_nil hrn
    have hjmem : r ∈ s.running := by
      rw [hr]
      exact List.mem_cons_self r rs
    have hstep : stepEv maxParallel s (Event.finish r)
        = completeSuccess maxParallel r s := by
      unfold stepEv
      simp [hex, hjmem]
    have hInv2 : QueueInv maxParallel (completeSuccess maxParallel r s) :=
      inv_completeSuccess maxParallel r s hInv hjmem
    have heq := completeSuccess_eq maxParallel r s hInv hjmem
    have hq2 : (completeSuccess maxParallel r s).queue.length = n := by
      rw [heq]
      show (s.queue.drop 1).length = n
      rw [List.length_drop]
      omega
    have hex2 : (completeSuccess maxParallel r s).exitCode = none := by
      rw [heq]
      exact hex
    have hsub2 : (completeSuccess maxParallel r s).submitted = s.submitted := by
      rw [heq]
    obtain ⟨fs, hall, hlen, hqf, hst⟩ :=
      ih (completeSuccess maxParallel r s) hInv2 hex2 hq2
    refine ⟨Event.finish r :: fs, ?_, by simp [hlen], ?_, ?_⟩
    · intro e he
      rcases List.mem_cons.mp he with he | he
      · exact ⟨r, he⟩
      · exact hall e he
    · show (fs.foldl (stepEv maxParallel)
        (stepEv maxParallel s (Event.finish r))).queue = []
      rw [hstep]
      exact hqf
    · show (fs.foldl (stepEv maxParallel)
        (stepEv maxParallel s (Event.finish r))).started = s.submitted
      rw [hstep, hst, hsub2]

/-- C8: absent any failure, every submitted job starts exactly once within
finitely many completions: from any reachable live state there is a finite
sequence of completion events, one per queued job, after which the queue is
empty and the start order equals the full submission order; when the
submitted jobs are distinct the start order is duplicate-free, so each job
started exactly once and none was skipped or left queued forever. -/
theorem every_submitted_job_eventually_starts (evs : List Event)
    (hex : (run MAX_PARALLEL_CLOSURE_INVOCATIONS evs).exitCode = none)
    (hnd : (run MAX_PARALLEL_CLOSURE_INVOCATIONS evs).submitted.Nodup) :
    ∃ fs : List Event,
      (∀ e ∈ fs, ∃ j, e = Event.finish j) ∧
      fs.length = (run MAX_PARALLEL_CLOSURE_INVOCATIONS evs).queue.length ∧
      (run MAX_PARALLEL_CLOSURE_INVOCATIONS (evs ++ fs)).queue = [] ∧
      (run MAX_PARALLEL_CLOSURE_INVOCATIONS (evs ++ fs)).started
        = (run MAX_PARALLEL_CLOSURE_INVOCATIONS evs).submitted ∧
      (run MAX_PARALLEL_CLOSURE_INVOCATIONS (evs ++ fs)).started.Nodup := by
  obtain ⟨fs, hall, hlen, hqf, hst⟩ :=
    drain_exists MAX_PARALLEL_CLOSURE_INVOCATIONS (by decide)
      ((run MAX_PARALLEL_CLOSURE_INVOCATIONS evs).queue.length)
      (run MAX_PARALLEL_CLOSURE_INVOCATIONS evs)
      (inv_run MAX_PARALLEL_CLOSURE_INVOCATIONS evs) hex rfl
  refine ⟨fs, hall, hlen, ?_, ?_, ?_⟩
  · rw [run_append]
    exact hqf
  · rw [run_append]
    exact hst
  · rw [run_append, hst]
    exact hnd

theorem every_submitted_job_eventually_starts_witness :
    (run MAX_PARALLEL_CLOSURE_INVOCATIONS
      [Event.submit 0, Event.submit 1, Event.submit 2, Event.submit 3,
        Event.submit 4]).exitCode = none ∧
    (run MAX_PARALLEL_CLOSURE_INVOCATIONS
      [Event.submit 0, Event.submit 1, Event.submit 2, Event.submit 3,
        Event.submit 4]).submitted.Nodup ∧
    ∃ fs : List Event,
      (∀ e ∈ fs, ∃ j, e = Event.finish j) ∧
      fs.length = (run MAX_PARALLEL_CLOSURE_INVOCATIONS
        [Event.submit 0, Event.submit 1, Event.submit 2, Event.submit 3,
          Event.submit 4]).queue.length ∧
      (run MAX_PARALLEL_CLOSURE_INVOCATIONS
        ([Event.submit 0, Event.submit 1, Event.submit 2, Event.submit 3,
          Event.submit 4] ++ fs)).queue = [] ∧
      (run MAX_PARALLEL_CLOSURE_INVOCATIONS
        ([Event.submit 0, Event.submit 1, Event.submit 2, Event.submit 3,
          Event.submit 4] ++ fs)).started
        = (run MAX_PARALLEL_CLOSURE_INVOCATIONS
          [Event.submit 0, Event.submit 1, Event.submit 2, Event.submit 3,
            Event.submit 4]).submitted ∧
      (run MAX_PARALLEL_CLOSURE_INVOCATIONS
        ([Event.submit 0, Event.submit 1, Event.submit 2, Event.submit 3,
          Event.submit 4] ++ fs)).started.Nodup :=
  ⟨by decide, by decide,
    every_submitted_job_eventually_starts
      [Event.submit 0, Event.submit 1, Event.submit 2, Event.submit 3,
        Event.submit 4] (by decide) (by decide)⟩
